import Mathlib

/-!
# Verification of the `pymocap` trajectory model

Shallow embedding of `pymocap/mocap.py` (`MocapTrajectory`).  Numeric
values (numpy float64 arrays) are modelled over a linear ordered field —
`ℚ` where we need executable witnesses, `ℝ` where the code takes square
roots (vector norms).  External library collaborators (`csaps` spline
fitting, `pylie` SO(3) conversions, `scipy` nearest interpolation,
`rosbag`) are modelled as abstract function parameters or, where a claim
depends on their documented formula, as that formula.
-/

/-! ## Python `round` (banker's rounding)

`round(x)` on a Python float rounds half to even.  Used by
`get_static_mask` to convert the window size in seconds to a half width
in samples. -/

def pyRound {K : Type} [LinearOrderedField K] [FloorRing K] (x : K) : ℤ :=
  let f := Int.floor x
  let r := x - f
  if r < 1 / 2 then f
  else if 1 / 2 < r then f + 1
  else if f % 2 = 0 then f else f + 1

/-! ## Static-interval detector (`MocapTrajectory.get_static_mask`)

`stamps` and `pos` are the raw timestamp / position arrays, read through
total functions; `N` is the number of samples.  Windows visited by the
loop are always in bounds, so out-of-range reads never influence the
result. -/

/-- Condition tested inside the loop of `get_static_mask`:
`np.trace(np.cov(pos[i-h : i+h].T)) < std_dev_threshold**2`.
`np.cov` normalizes by `m - 1` (`m = 2*h` observations); with fewer than
two observations it produces NaN, and `NaN < c` is `False`, which the
`m ≤ 1` branch reproduces. -/
def static_window_cond {K : Type} [LinearOrderedField K]
    (pos : ℕ → Fin 3 → K) (h : ℕ) (std_dev_threshold : K) (i : ℕ) : Bool :=
  let m := 2 * h
  if m ≤ 1 then false
  else
    decide ((∑ a : Fin 3, ∑ k in Finset.range m,
        (pos (i - h + k) a -
          (∑ l in Finset.range m, pos (i - h + l) a) / (m : K)) ^ 2) / ((m : K) - 1)
      < std_dev_threshold ^ 2)

/-- Body of the `get_static_mask` loop for one index `i`: writes
`is_static[i] = True` and performs the `if i == h` / `elif i == N-h-1`
boundary extensions when the window at `i` is static. -/
def static_loop_step (h N : ℕ) (cond : ℕ → Bool) (mask : ℕ → Bool) (i : ℕ) : ℕ → Bool :=
  if cond i then
    let mask1 := Function.update mask i true
    if i = h then fun j => if j < h then true else mask1 j
    else if i = N - h - 1 then fun j => if i ≤ j then true else mask1 j
    else mask1
  else mask

/-- `MocapTrajectory.get_static_mask(window_size, std_dev_threshold)`.
`freq = 1 / ((stamps[-1] - stamps[0]) / stamps.size)`,
`window_half_width = round(window_size / 2 * freq)`, then one pass over
`range(h, N - h)` marking static windows, with the two (`if` / `elif`)
boundary-extension writes. -/
def get_static_mask {K : Type} [LinearOrderedField K] [FloorRing K]
    (stamps : ℕ → K) (pos : ℕ → Fin 3 → K) (N : ℕ)
    (window_size std_dev_threshold : K) : ℕ → Bool :=
  let freq := 1 / ((stamps (N - 1) - stamps 0) / (N : K))
  let h := (pyRound (window_size / 2 * freq)).toNat
  (List.range' h (N - h - h)).foldl
    (static_loop_step h N (static_window_cond pos h std_dev_threshold))
    (fun _ => false)

/-- Example data: three samples at times 0, 1, 2 with the body at rest. -/
def exStamps : ℕ → ℚ := fun n => (n : ℚ)

/-- Example data: all raw positions at the origin. -/
def exPos : ℕ → Fin 3 → ℚ := fun _ _ => 0

/-- Helper: the set of indices `j` written to `True` by the iteration at
`i` of the `get_static_mask` loop (`j = i`, the `i == h` prefix
extension, or the `elif i == N-h-1` suffix extension). -/
def static_write (h N : ℕ) (cond : ℕ → Bool) (i j : ℕ) : Bool :=
  cond i && (decide (j = i) || (decide (i = h) && decide (j < h))
    || (!decide (i = h) && decide (i = N - h - 1) && decide (i ≤ j)))

/-! ## Quaternion continuity normalization (`_fit_quaternion_spline`)

`quat /= np.linalg.norm(quat, axis=1)[:, None]` followed by the in-place
sign-resolution loop, before the spline fit.  Quaternion rows are
`Fin 4 → ℝ`; `np.linalg.norm` is the Euclidean norm. -/

/-- Euclidean norm of a quaternion row (`np.linalg.norm`). -/
noncomputable def norm4 (q : Fin 4 → ℝ) : ℝ := Real.sqrt (∑ i, q i ^ 2)

/-- Row normalization `q / np.linalg.norm(q)`. -/
noncomputable def normalize4 (q : Fin 4 → ℝ) : Fin 4 → ℝ := fun i => q i / norm4 q

/-- One step of the sign-resolution loop: flip `q` to `-q` when
`np.linalg.norm(-q - q_old) < np.linalg.norm(q - q_old)` for the
already-processed previous row `q_old`. -/
noncomputable def flip_step (q_old q : Fin 4 → ℝ) : Fin 4 → ℝ :=
  if norm4 (-q - q_old) < norm4 (q - q_old) then -q else q

/-- The sign-resolution loop over the rows after the first; because the
flips happen in place, each row is compared against the processed
version of its predecessor. -/
noncomputable def resolve_signs (q_old : Fin 4 → ℝ) :
    List (Fin 4 → ℝ) → List (Fin 4 → ℝ)
  | [] => []
  | q :: rest =>
    let q' := flip_step q_old q
    q' :: resolve_signs q' rest

/-- The full preprocessing done by `_fit_quaternion_spline` before the
`csaps` call: per-row normalization, then sign resolution. -/
noncomputable def quat_preprocess : List (Fin 4 → ℝ) → List (Fin 4 → ℝ)
  | [] => []
  | q0 :: rest => normalize4 q0 :: resolve_signs (normalize4 q0) (rest.map normalize4)

/-- Example data: the identity quaternion `[1, 0, 0, 0]`. -/
noncomputable def exQuat : Fin 4 → ℝ := fun i => if i = 0 then 1 else 0

/-- The nearest-sample index map used by `is_static`:
`interp1d(stamps, indexes, "nearest", bounds_error=False,
fill_value="extrapolate")`.  Modelled from scipy's documented behaviour
for `kind="nearest"`: `searchsorted(side="left")` over the midpoints of
consecutive stamps (exact midpoints round down), which clamps to the
first/last index outside the sampled range. -/
def nearest_time_idx {K : Type} [LinearOrderedField K] (stamps : List K) (t : K) : ℕ :=
  (List.range (stamps.length - 1)).countP
    (fun k => decide ((stamps.getD k 0 + stamps.getD (k + 1) 0) / 2 < t))

/-! ## The trajectory model (`MocapTrajectory`)

External library collaborators are abstract: `csaps` returns some
spline-evaluation function `(t, derivative_order) ↦ value per channel`,
and `pylie`'s `SO3.from_quat` / `SO3.to_quat` are arbitrary conversion
functions.  The claims below are about how `MocapTrajectory` composes
them, not about their internals. -/

/-- The external collaborators: `csaps(stamps, data.T, smooth=...)` for 3
and 4 channels, and `pylie.SO3` quaternion/matrix conversions
(scalar-first `wxyz` order). -/
structure MocapLibs where
  csaps3 : ℝ → List ℝ → List (Fin 3 → ℝ) → (ℝ → ℕ → Fin 3 → ℝ)
  csaps4 : ℝ → List ℝ → List (Fin 4 → ℝ) → (ℝ → ℕ → Fin 4 → ℝ)
  fromQuat : (Fin 4 → ℝ) → Matrix (Fin 3) (Fin 3) ℝ
  toQuat : Matrix (Fin 3) (Fin 3) ℝ → (Fin 4 → ℝ)

/-- State of a `MocapTrajectory` object: the stored raw arrays, the frame
id, the two fitted splines, and the static mask computed at
construction. -/
structure Mocap (α : Type) where
  stamps : List ℝ
  rawPos : List (Fin 3 → ℝ)
  rawQuat : List (Fin 4 → ℝ)
  frameId : α
  posSpline : ℝ → ℕ → Fin 3 → ℝ
  quatSpline : ℝ → ℕ → Fin 4 → ℝ
  staticMask : ℕ → Bool

/-- `_fit_position_spline`: `csaps(stamps, pos.T, smooth=0.9999)`. -/
noncomputable def fit_position_spline (ext : MocapLibs) (stamps : List ℝ)
    (pos : List (Fin 3 → ℝ)) : ℝ → ℕ → Fin 3 → ℝ :=
  ext.csaps3 0.9999 stamps pos

/-- `_fit_quaternion_spline`: continuity normalization followed by
`csaps(stamps, quat.T, smooth=0.99999)`. -/
noncomputable def fit_quaternion_spline (ext : MocapLibs) (stamps : List ℝ)
    (quat : List (Fin 4 → ℝ)) : ℝ → ℕ → Fin 4 → ℝ :=
  ext.csaps4 0.99999 stamps (quat_preprocess quat)

/-- `MocapTrajectory.__init__`: stores the raw arrays, fits both splines,
and computes the static mask with window size 1 s and standard-deviation
threshold 0.0008.  (`_fit_quaternion_spline` normalizes and sign-flips
its argument array in place, so the stored `raw_quaternion` holds the
preprocessed rows.) -/
noncomputable def mkMocap {α : Type} (ext : MocapLibs) (stamps : List ℝ)
    (position_data : List (Fin 3 → ℝ)) (quaternion_data : List (Fin 4 → ℝ))
    (frame_id : α) : Mocap α where
  stamps := stamps
  rawPos := position_data
  rawQuat := quat_preprocess quaternion_data
  frameId := frame_id
  posSpline := fit_position_spline ext stamps position_data
  quatSpline := fit_quaternion_spline ext stamps quaternion_data
  staticMask := get_static_mask (fun n => stamps.getD n 0)
    (fun n => position_data.getD n 0) stamps.length 1 0.0008

namespace Mocap

/-- `position(t)`: order-0 spline evaluation. -/
noncomputable def position {α : Type} (T : Mocap α) (t : ℝ) : Fin 3 → ℝ :=
  T.posSpline t 0

/-- `velocity(t)`: order-1 spline evaluation. -/
noncomputable def velocity {α : Type} (T : Mocap α) (t : ℝ) : Fin 3 → ℝ :=
  T.posSpline t 1

/-- `acceleration(t)`: order-2 spline evaluation. -/
noncomputable def acceleration {α : Type} (T : Mocap α) (t : ℝ) : Fin 3 → ℝ :=
  T.posSpline t 2

/-- `quaternion(t)`: order-0 orientation spline evaluation,
re-normalized to unit length. -/
noncomputable def quaternion {α : Type} (T : Mocap α) (t : ℝ) : Fin 4 → ℝ :=
  normalize4 (T.quatSpline t 0)

/-- `rot_matrix(t)`: `SO3.from_quat(quaternion(t), order="wxyz")`. -/
noncomputable def rot_matrix {α : Type} (ext : MocapLibs) (T : Mocap α) (t : ℝ) :
    Matrix (Fin 3) (Fin 3) ℝ :=
  ext.fromQuat (T.quaternion t)

end Mocap

/-- `pylie.SO3.wedge`: the skew-symmetric cross-product matrix. -/
def so3_wedge (e : Fin 3 → ℝ) : Matrix (Fin 3) (Fin 3) ℝ :=
  !![0, -e 2, e 1;
     e 2, 0, -e 0;
     -e 1, e 0, 0]

/-- The per-sample `S` matrix built inside `angular_velocity` by
`np.hstack((-2*e, 2*(eta*I3 - SO3.wedge(e))))` with `eta = q[0]`,
`e = q[1:]`. -/
noncomputable def smat (q : Fin 4 → ℝ) : Matrix (Fin 3) (Fin 4) ℝ :=
  Matrix.of fun r c =>
    Fin.cases (-2 * q r.succ)
      (fun c3 =>
        ((2 : ℝ) • (q 0 • (1 : Matrix (Fin 3) (Fin 3) ℝ)
          - so3_wedge (fun k => q k.succ))) r c3)
      c

/-- The 3×4 matrix `S(q) = [-2ε, 2(η·I₃ - [ε]ₓ)]` written out entry by
entry from the specification (scalar part `η = q 0`, vector part
`ε = (q 1, q 2, q 3)`). -/
noncomputable def smat_spec (q : Fin 4 → ℝ) : Matrix (Fin 3) (Fin 4) ℝ :=
  !![-2 * q 1, 2 * q 0, 2 * q 3, -2 * q 2;
     -2 * q 2, -2 * q 3, 2 * q 0, 2 * q 1;
     -2 * q 3, 2 * q 2, -2 * q 1, 2 * q 0]

namespace Mocap

/-- `angular_velocity(t)`: per query time, normalize the order-0 spline
value, build `S`, and return `S @ q_dot` for the (unnormalized) order-1
spline value. -/
noncomputable def angular_velocity {α : Type} (T : Mocap α) (t : ℝ) : Fin 3 → ℝ :=
  let q := normalize4 (T.quatSpline t 0)
  let q_dot := T.quatSpline t 1
  (smat q).mulVec q_dot

/-- `accelerometer(t, g_a)`: `C_ba @ (a_zwa_a - g_a)` with
`C_ba = rot_matrix(t).T` and default gravity `[0, 0, -9.80665]`. -/
noncomputable def accelerometer {α : Type} (ext : MocapLibs) (T : Mocap α)
    (g_a : Option (Fin 3 → ℝ)) (t : ℝ) : Fin 3 → ℝ :=
  let g := g_a.getD ![0, 0, -9.80665]
  let a_zwa_a := T.posSpline t 2
  let C_ba := (rot_matrix ext T t).transpose
  C_ba.mulVec (a_zwa_a - g)

/-- `body_velocity(stamps)`: the source computes the `(N, 3)` array
`(C_ba @ v_zw_a).squeeze()` and then returns its TRANSPOSE
(`... .squeeze().T`), so the result is indexed component-first:
entry `(i, n)` is component `i` of `rot_matrix(t_n).T @ velocity(t_n)`. -/
noncomputable def body_velocity {α : Type} (ext : MocapLibs) (T : Mocap α)
    (ts : List ℝ) : Fin 3 → ℕ → ℝ :=
  let pre : ℕ → Fin 3 → ℝ := fun n =>
    ((rot_matrix ext T (ts.getD n 0)).transpose).mulVec (T.velocity (ts.getD n 0))
  fun i n => pre n i

/-- The output layout asserted by the docstring and the spec: one row
per query time, row `n` being `rot_matrix(t_n).T @ velocity(t_n)`. -/
noncomputable def body_velocity_rows {α : Type} (ext : MocapLibs) (T : Mocap α)
    (ts : List ℝ) : ℕ → Fin 3 → ℝ :=
  fun n =>
    ((rot_matrix ext T (ts.getD n 0)).transpose).mulVec (T.velocity (ts.getD n 0))

/-- `is_static(t)`: static-mask lookup at the nearest raw sample index
(`scipy.interpolate.interp1d(stamps, indexes, "nearest",
fill_value="extrapolate")`, modelled by `nearest_time_idx`). -/
noncomputable def is_static {α : Type} (T : Mocap α) (t : ℝ) : Bool :=
  T.staticMask (nearest_time_idx T.stamps t)

/-- `rotate_body_frame(C_bm)`: recompute the rotation matrices at the
sample instants, right-multiply by `C_bm.T`, convert back to quaternions
and re-fit the orientation spline only. -/
noncomputable def rotate_body_frame {α : Type} (ext : MocapLibs) (T : Mocap α)
    (C_bm : Matrix (Fin 3) (Fin 3) ℝ) : Mocap α :=
  let q_wb := T.stamps.map (fun t => ext.toQuat (rot_matrix ext T t * C_bm.transpose))
  { T with quatSpline := fit_quaternion_spline ext T.stamps q_wb }

/-- `rotate_world_frame(C_wn)`: left-multiply the sampled rotations by
`C_wn.T`, rotate the sampled positions by `C_wn.T`, and re-fit both
splines. -/
noncomputable def rotate_world_frame {α : Type} (ext : MocapLibs) (T : Mocap α)
    (C_wn : Matrix (Fin 3) (Fin 3) ℝ) : Mocap α :=
  let q_nm := T.stamps.map (fun t => ext.toQuat (C_wn.transpose * rot_matrix ext T t))
  let r_zw_n := T.stamps.map (fun t => C_wn.transpose.mulVec (T.position t))
  { T with posSpline := fit_position_spline ext T.stamps r_zw_n,
           quatSpline := fit_quaternion_spline ext T.stamps q_nm }

end Mocap

/-- Trivial external collaborators used for concrete evaluations:
constant splines, `SO3.from_quat` returning the identity matrix. -/
def ext0 : MocapLibs where
  csaps3 := fun _ _ _ => fun _ _ _ => 0
  csaps4 := fun _ _ _ => fun _ _ _ => 0
  fromQuat := fun _ => 1
  toQuat := fun _ _ => 0

/-- Trivial external collaborators used for the `is_static`
construction-time witness. -/
def extW : MocapLibs where
  csaps3 := fun _ _ _ => fun _ _ _ => 0
  csaps4 := fun _ _ _ => fun _ _ _ => 0
  fromQuat := fun _ => 1
  toQuat := fun _ _ => 0

/-- A concrete trajectory state whose velocity at time `t` is
`(t, t, t)` and whose rotation is the identity. -/
noncomputable def T0 : Mocap Unit where
  stamps := [0, 1]
  rawPos := []
  rawQuat := []
  frameId := ()
  posSpline := fun t k _ => if k = 1 then t else 0
  quatSpline := fun _ _ _ => 0
  staticMask := fun _ => false

/-! ## `MocapTrajectory.from_bag` topic selection

The bag itself is external; what the source owns is the topic filtering:
collect the bag's topic names containing
`vrpn_client_node/<body_id>/pose`, narrow with
`<body_id>/vrpn_client_node/<body_id>/pose` if more than one matched,
and raise `ValueError` if more than one still remains.  Topic names are
character lists; Python's `in` is the substring test. -/

/-- Whether `needle` is a leading run of `hay`. -/
def leadsWith : List Char → List Char → Bool
  | [], _ => true
  | _ :: _, [] => false
  | a :: as, b :: bs => a == b && leadsWith as bs

/-- Python's `needle in hay` substring test. -/
def hasSubstring (needle : List Char) : List Char → Bool
  | [] => leadsWith needle []
  | b :: rest => leadsWith needle (b :: rest) || hasSubstring needle rest

/-- The error message raised when more than one topic survives. -/
def multipleTopicsMsg : List Char :=
  ("Multiple matching topics found. Please specify"
    ++ " exactly the right one using the `topic` argument.").toList

set_option linter.unusedVariables false in
/-- `from_bag`'s topic selection: the returned list is what the rest of
the function loads and converts.  The `topic` parameter is accepted but
never read anywhere in the function body. -/
def from_bag (topics : List (List Char)) (body_id : List Char)
    (topic : Option (List Char)) : Except (List Char) (List (List Char)) :=
  let search_str := "vrpn_client_node/".toList ++ body_id ++ "/pose".toList
  let vrpn_topics := topics.filter (fun s => hasSubstring search_str s)
  let vrpn_topics2 :=
    if 1 < vrpn_topics.length then
      vrpn_topics.filter (fun s => hasSubstring (body_id ++ "/".toList ++ search_str) s)
    else vrpn_topics
  if 1 < vrpn_topics2.length then Except.error multipleTopicsMsg
  else Except.ok vrpn_topics2

theorem static_loop_step_char (h N : ℕ) (cond mask : ℕ → Bool) (i j : ℕ) :
    static_loop_step h N cond mask i j = (mask j || static_write h N cond i j) := by
  by_cases hc : cond i
  · simp only [static_loop_step, static_write, hc, if_true, Bool.true_and]
    by_cases hih : i = h
    · subst hih
      by_cases hj : j < i <;>
        by_cases hji : j = i <;>
          simp [Function.update_apply, hj, hji]
    · by_cases hie : i = N - h - 1
      · subst hie
        by_cases hij : N - h - 1 ≤ j <;>
          by_cases hji : j = N - h - 1 <;>
            simp_all [Function.update_apply, hih, Bool.or_comm]
      · by_cases hji : j = i <;> simp [Function.update_apply, hih, hie, hji]
  · simp [static_loop_step, static_write, hc]

theorem static_foldl_char (h N : ℕ) (cond : ℕ → Bool) :
    ∀ (L : List ℕ) (m0 : ℕ → Bool) (j : ℕ),
      (L.foldl (static_loop_step h N cond) m0) j
        = (m0 j || L.any (fun i => static_write h N cond i j)) := by
  intro L
  induction L with
  | nil => intro m0 j; simp
  | cons x xs ih =>
    intro m0 j
    simp only [List.foldl_cons, List.any_cons]
    rw [ih, static_loop_step_char]
    simp [Bool.or_assoc]

/-- C3 (amended): `get_static_mask` computes `freq = N / (t_last - t_first)`
and `h = round(window_size / 2 * freq)`; an index `j < N` is marked static
iff the covariance-trace window test passes at `j` itself (`h ≤ j < N-h`),
or `j` lies in the prefix `[0, h)` and the window at `i = h` is static, or
(`elif`: only when `N - h - 1 ≠ h`) `N - h - 1 ≤ j` and the window at
`i = N - h - 1` is static. -/
theorem get_static_mask_spec {K : Type} [LinearOrderedField K] [FloorRing K]
    (stamps : ℕ → K) (pos : ℕ → Fin 3 → K) (N : ℕ)
    (window_size std_dev_threshold : K) (j : ℕ) (hj : j < N)
    (h : ℕ)
    (hh : h = (pyRound (window_size / 2 * ((N : K) / (stamps (N - 1) - stamps 0)))).toNat) :
    get_static_mask stamps pos N window_size std_dev_threshold j = true ↔
      ((h ≤ j ∧ j < N - h ∧ static_window_cond pos h std_dev_threshold j = true)
       ∨ (j < h ∧ h < N - h ∧ static_window_cond pos h std_dev_threshold h = true)
       ∨ (N - h - 1 ≠ h ∧ h ≤ N - h - 1 ∧ N - h - 1 < N - h ∧ N - h - 1 ≤ j
           ∧ static_window_cond pos h std_dev_threshold (N - h - 1) = true)) := by
  have hfreq : (1 : K) / ((stamps (N - 1) - stamps 0) / (N : K))
      = (N : K) / (stamps (N - 1) - stamps 0) := one_div_div _ _
  simp only [get_static_mask, hfreq, ← hh]
  rw [static_foldl_char]
  simp only [Bool.false_or, List.any_eq_true]
  constructor
  · rintro ⟨i, hmem, hw⟩
    rw [List.mem_range'_1] at hmem
    simp only [static_write, Bool.and_eq_true, Bool.or_eq_true, decide_eq_true_eq,
      Bool.not_eq_true', decide_eq_false_iff_not] at hw
    simp only [and_assoc] at hw
    obtain ⟨hci, hcase⟩ := hw
    rcases hcase with (hji | ⟨hih, hjh⟩) | ⟨hnih, hie, hij⟩
    · subst hji
      exact Or.inl ⟨hmem.1, by omega, hci⟩
    · subst hih
      exact Or.inr (Or.inl ⟨hjh, by omega, hci⟩)
    · subst hie
      exact Or.inr (Or.inr ⟨by omega, by omega, by omega, hij, hci⟩)
  · rintro (⟨h1, h2, h3⟩ | ⟨h1, h2, h3⟩ | ⟨h1, h2, h3, h4, h5⟩)
    · refine ⟨j, ?_, ?_⟩
      · rw [List.mem_range'_1]; omega
      · simp [static_write, h3]
    · refine ⟨h, ?_, ?_⟩
      · rw [List.mem_range'_1]; omega
      · simp [static_write, h3, h1]
    · refine ⟨N - h - 1, ?_, ?_⟩
      · rw [List.mem_range'_1]; omega
      · simp only [static_write, h5, Bool.true_and]
        have : ¬(N - h - 1 = h) := h1
        simp [this, h4]

/-- C3 counterexample: with three samples at times 0, 1, 2, all positions
identical, `window_size = 4/3` and `std_dev_threshold = 1`, the half
width is `h = 1`, the window at `i = 1 = N - h - 1` is found static, yet
`get_static_mask` leaves index 2 unmarked: the `elif` never fires because
`i == h` takes precedence, contradicting the claim that a static window
at `i == N - h - 1` marks all indices from `i` to the end. -/
theorem get_static_mask_cex :
    (pyRound ((4 / 3 : ℚ) / 2 * (((3 : ℕ) : ℚ) / (exStamps 2 - exStamps 0)))).toNat = 1
    ∧ static_window_cond exPos 1 1 1 = true
    ∧ 3 - 1 - 1 = 1
    ∧ get_static_mask exStamps exPos 3 (4 / 3) 1 2 = false := by
  refine ⟨?_, ?_, ?_, ?_⟩ <;> with_unfolding_all decide

/-- C3 witness: the characterization evaluated at the example data,
query index 0. -/
theorem get_static_mask_spec_witness :
    ((0 : ℕ) < 3
      ∧ (1 : ℕ) = (pyRound ((4 / 3 : ℚ) / 2
          * (((3 : ℕ) : ℚ) / (exStamps (3 - 1) - exStamps 0)))).toNat)
    ∧ (get_static_mask exStamps exPos 3 (4 / 3) 1 0 = true ↔
        ((1 ≤ 0 ∧ 0 < 3 - 1 ∧ static_window_cond exPos 1 1 0 = true)
         ∨ (0 < 1 ∧ 1 < 3 - 1 ∧ static_window_cond exPos 1 1 1 = true)
         ∨ (3 - 1 - 1 ≠ 1 ∧ 1 ≤ 3 - 1 - 1 ∧ 3 - 1 - 1 < 3 - 1 ∧ 3 - 1 - 1 ≤ 0
             ∧ static_window_cond exPos 1 1 (3 - 1 - 1) = true))) := by
  have h1 : (0 : ℕ) < 3 := by decide
  have h2 : (1 : ℕ) = (pyRound ((4 / 3 : ℚ) / 2
      * (((3 : ℕ) : ℚ) / (exStamps (3 - 1) - exStamps 0)))).toNat := by
    with_unfolding_all decide
  exact ⟨⟨h1, h2⟩, get_static_mask_spec exStamps exPos 3 (4 / 3) 1 0 h1 1 h2⟩

theorem norm4_neg (q : Fin 4 → ℝ) : norm4 (-q) = norm4 q := by
  unfold norm4
  congr 1
  exact Finset.sum_congr rfl fun i _ => by rw [Pi.neg_apply, neg_sq]

theorem norm4_flip_step (q_old q : Fin 4 → ℝ) :
    norm4 (flip_step q_old q) = norm4 q := by
  unfold flip_step
  split
  · exact norm4_neg q
  · rfl

theorem norm4_normalize4 (q : Fin 4 → ℝ) (hq : q ≠ 0) :
    norm4 (normalize4 q) = 1 := by
  have hS : 0 < ∑ i, q i ^ 2 := by
    obtain ⟨i, hi⟩ := Function.ne_iff.mp hq
    have h1 : 0 < q i ^ 2 := pow_two_pos_of_ne_zero hi
    have h2 : q i ^ 2 ≤ ∑ j, q j ^ 2 :=
      Finset.single_le_sum (fun j _ => sq_nonneg (q j)) (Finset.mem_univ i)
    linarith
  have hn : norm4 q = Real.sqrt (∑ i, q i ^ 2) := rfl
  have hsq : norm4 q ^ 2 = ∑ i, q i ^ 2 := by rw [hn]; exact Real.sq_sqrt hS.le
  show Real.sqrt (∑ i, (q i / norm4 q) ^ 2) = 1
  have hdiv : ∑ i, (q i / norm4 q) ^ 2 = (∑ i, q i ^ 2) / norm4 q ^ 2 := by
    rw [Finset.sum_div]
    exact Finset.sum_congr rfl fun i _ => div_pow _ _ _
  rw [hdiv, hsq, div_self (ne_of_gt hS), Real.sqrt_one]

theorem resolve_signs_norm :
    ∀ (rest : List (Fin 4 → ℝ)) (q_old : Fin 4 → ℝ),
      (∀ q ∈ rest, norm4 q = 1) → ∀ x ∈ resolve_signs q_old rest, norm4 x = 1 := by
  intro rest
  induction rest with
  | nil => intro q_old _ x hx; simp [resolve_signs] at hx
  | cons q rs ih =>
    intro q_old hall x hx
    simp only [resolve_signs] at hx
    rcases List.mem_cons.mp hx with hx1 | hx2
    · rw [hx1, norm4_flip_step]
      exact hall q (List.mem_cons_self q rs)
    · exact ih (flip_step q_old q) (fun y hy => hall y (List.mem_cons_of_mem _ hy)) x hx2

theorem resolve_signs_chain :
    ∀ (rest : List (Fin 4 → ℝ)) (q_old : Fin 4 → ℝ),
      List.Chain' (fun a b => norm4 (b - a) ≤ norm4 (-b - a))
        (q_old :: resolve_signs q_old rest) := by
  intro rest
  induction rest with
  | nil => intro q_old; simp [resolve_signs]
  | cons q rs ih =>
    intro q_old
    simp only [resolve_signs]
    rw [List.chain'_cons]
    constructor
    · unfold flip_step
      split
      case isTrue hlt =>
        rw [neg_neg]
        exact hlt.le
      case isFalse hge => exact not_lt.mp hge
    · exact ih (flip_step q_old q)

/-- C2 (amended): for an input quaternion sequence all of whose rows are
nonzero, the continuity-normalization step of `_fit_quaternion_spline`
produces rows of unit Euclidean norm, and every pair of consecutive
processed rows `q_i, q_{i+1}` satisfies
`‖q_{i+1} - q_i‖ ≤ ‖-q_{i+1} - q_i‖` (the closer sign branch was
chosen against the already-processed previous row). -/
theorem quat_preprocess_spec (quat : List (Fin 4 → ℝ))
    (hnz : ∀ q ∈ quat, q ≠ 0) :
    (∀ q ∈ quat_preprocess quat, norm4 q = 1)
    ∧ List.Chain' (fun a b => norm4 (b - a) ≤ norm4 (-b - a))
        (quat_preprocess quat) := by
  cases quat with
  | nil => simp [quat_preprocess]
  | cons q0 rest =>
    constructor
    · intro q hq
      simp only [quat_preprocess] at hq
      rcases List.mem_cons.mp hq with hq1 | hq2
      · rw [hq1]
        exact norm4_normalize4 q0 (hnz q0 (List.mem_cons_self q0 rest))
      · refine resolve_signs_norm (rest.map normalize4) (normalize4 q0) ?_ q hq2
        intro y hy
        obtain ⟨z, hz, hzy⟩ := List.mem_map.mp hy
        rw [← hzy]
        exact norm4_normalize4 z (hnz z (List.mem_cons_of_mem _ hz))
    · simp only [quat_preprocess]
      exact resolve_signs_chain (rest.map normalize4) (normalize4 q0)

/-- C2 counterexample: on the one-row input `[[0,0,0,0]]` the
normalization divides by a zero norm and the processed row does not have
unit norm, so the claim fails without a nonzero-rows assumption
(in numpy, `0/0` yields NaN with the same effect). -/
theorem quat_preprocess_cex :
    ¬ (∀ q ∈ quat_preprocess [(fun _ => (0 : ℝ))], norm4 q = 1) := by
  intro hall
  have hmem : normalize4 (fun _ => (0 : ℝ)) ∈ quat_preprocess [(fun _ => (0 : ℝ))] := by
    simp [quat_preprocess, resolve_signs]
  have h1 := hall _ hmem
  have h2 : normalize4 (fun _ => (0 : ℝ)) = fun _ => (0 : ℝ) := by
    funext i
    simp [normalize4]
  rw [h2] at h1
  have h3 : norm4 (fun _ => (0 : ℝ)) = 0 := by
    unfold norm4
    simp
  rw [h3] at h1
  norm_num at h1

/-- C2 witness: the preprocessing contract evaluated on the one-row
input `[[1,0,0,0]]`, whose row is nonzero. -/
theorem quat_preprocess_spec_witness :
    (∀ q ∈ [exQuat], q ≠ 0)
    ∧ ((∀ q ∈ quat_preprocess [exQuat], norm4 q = 1)
       ∧ List.Chain' (fun a b => norm4 (b - a) ≤ norm4 (-b - a))
           (quat_preprocess [exQuat])) := by
  have h : ∀ q ∈ [exQuat], q ≠ (0 : Fin 4 → ℝ) := by
    intro q hq
    rw [List.mem_singleton] at hq
    subst hq
    intro hcontra
    have h0 := congrFun hcontra 0
    simp [exQuat] at h0
  exact ⟨h, quat_preprocess_spec [exQuat] h⟩

theorem smat_eq_smat_spec (q : Fin 4 → ℝ) : smat q = smat_spec q := by
  have e1 : (1 : Fin 4) = Fin.succ 0 := rfl
  have e2 : (2 : Fin 4) = Fin.succ 1 := rfl
  have e3 : (3 : Fin 4) = Fin.succ 2 := rfl
  have f1 : (1 : Fin 3) = Fin.succ 0 := rfl
  have f2 : (2 : Fin 3) = Fin.succ 1 := rfl
  have g1 : (1 : Fin 2) = Fin.succ 0 := rfl
  rw [← Matrix.ext_iff]
  simp only [Fin.forall_fin_succ, IsEmpty.forall_iff, e1, e2, e3, f1, f2, g1]
  simp +decide only [smat, smat_spec, Matrix.of_apply, Fin.cases_zero, Fin.cases_succ,
    Matrix.smul_apply, Matrix.sub_apply, Matrix.one_apply, so3_wedge,
    Matrix.cons_val_zero, Matrix.cons_val_succ, smul_eq_mul, e1, e2, e3, f1, f2, g1]
  norm_num

/-- C1: at every query time, `angular_velocity` returns
`S(q) @ q_dot`, where `q` is the order-0 orientation-spline value
re-normalized to unit length, `q_dot` is the order-1 value, and `S(q)`
is the 3×4 matrix `[-2ε, 2(η·I₃ - [ε]ₓ)]` built from the scalar and
vector parts of `q` at that instant. -/
theorem angular_velocity_spec {α : Type} (T : Mocap α) (t : ℝ) :
    T.angular_velocity t
      = (smat_spec (normalize4 (T.quatSpline t 0))).mulVec (T.quatSpline t 1) := by
  simp only [Mocap.angular_velocity]
  rw [smat_eq_smat_spec]

/-- C4: `body_velocity` computes `rot_matrix(t_n).T @ velocity(t_n)` per
query time but returns the transposed `(3, N)` array (the trailing `.T`
in the source), not the row-per-query-time layout the docstring and spec
promise; on a concrete trajectory the two layouts disagree. -/
theorem body_velocity_transposed :
    (∀ (α : Type) (ext : MocapLibs) (T : Mocap α) (ts : List ℝ) (i : Fin 3) (n : ℕ),
        Mocap.body_velocity ext T ts i n = Mocap.body_velocity_rows ext T ts n i)
    ∧ Mocap.body_velocity ext0 T0 [0, 1] 0 1
        ≠ Mocap.body_velocity_rows ext0 T0 [0, 1] 0 1 := by
  refine ⟨fun α ext T ts i n => rfl, ?_⟩
  have h1 : Mocap.body_velocity ext0 T0 [0, 1] 0 1 = 1 := by
    simp [Mocap.body_velocity, Mocap.velocity, Mocap.rot_matrix, Mocap.quaternion,
      ext0, T0, Matrix.transpose_one, Matrix.one_mulVec]
  have h2 : Mocap.body_velocity_rows ext0 T0 [0, 1] 0 1 = 0 := by
    simp [Mocap.body_velocity_rows, Mocap.velocity, Mocap.rot_matrix, Mocap.quaternion,
      ext0, T0, Matrix.transpose_one, Matrix.one_mulVec]
  rw [h1, h2]
  norm_num

/-- C5: at every query time and for every gravity vector (defaulting to
`[0, 0, -9.80665]`), `accelerometer` returns
`rot_matrix(t).T @ (acceleration(t) - g)`. -/
theorem accelerometer_spec {α : Type} (ext : MocapLibs) (T : Mocap α) (t : ℝ)
    (g : Fin 3 → ℝ) :
    Mocap.accelerometer ext T none t
        = (Mocap.rot_matrix ext T t).transpose.mulVec
            (T.posSpline t 2 - ![0, 0, -9.80665])
    ∧ Mocap.accelerometer ext T (some g) t
        = (Mocap.rot_matrix ext T t).transpose.mulVec (T.posSpline t 2 - g) :=
  ⟨rfl, rfl⟩

/-- C6: `rotate_world_frame(C_wn)` re-fits the orientation spline from
the quaternions of `C_wn.T @ rot_matrix(t_i)` at the original sample
instants, and the position spline from `C_wn.T @ position(t_i)`;
both via the full fitting pipeline (continuity normalization included
for the orientation). -/
theorem rotate_world_frame_spec {α : Type} (ext : MocapLibs) (T : Mocap α)
    (C_wn : Matrix (Fin 3) (Fin 3) ℝ) :
    (Mocap.rotate_world_frame ext T C_wn).quatSpline
        = ext.csaps4 0.99999 T.stamps
            (quat_preprocess (T.stamps.map fun t =>
              ext.toQuat (C_wn.transpose * Mocap.rot_matrix ext T t)))
    ∧ (Mocap.rotate_world_frame ext T C_wn).posSpline
        = ext.csaps3 0.9999 T.stamps
            (T.stamps.map fun t => C_wn.transpose.mulVec (T.position t))
    ∧ (Mocap.rotate_world_frame ext T C_wn).stamps = T.stamps :=
  ⟨rfl, rfl, rfl⟩

/-- C7: `rotate_body_frame(C_bm)` re-fits only the orientation spline,
from the quaternions of `rot_matrix(t_i) @ C_bm.T` recomputed from the
current spline at the original sample instants (continuity normalizer
re-run by the fitting pipeline); the position data and position spline
are untouched, so position queries are unchanged. -/
theorem rotate_body_frame_spec {α : Type} (ext : MocapLibs) (T : Mocap α)
    (C_bm : Matrix (Fin 3) (Fin 3) ℝ) :
    (Mocap.rotate_body_frame ext T C_bm).quatSpline
        = ext.csaps4 0.99999 T.stamps
            (quat_preprocess (T.stamps.map fun t =>
              ext.toQuat (Mocap.rot_matrix ext T t * C_bm.transpose)))
    ∧ (Mocap.rotate_body_frame ext T C_bm).posSpline = T.posSpline
    ∧ (Mocap.rotate_body_frame ext T C_bm).rawPos = T.rawPos
    ∧ ∀ s, Mocap.position (Mocap.rotate_body_frame ext T C_bm) s = T.position s :=
  ⟨rfl, rfl, rfl, fun _ => rfl⟩

/-- C10: neither re-basing operation modifies `stamps`, `raw_position`,
`raw_quaternion`, `frame_id` or `static_mask`; only the owned splines
are replaced, and `is_static` answers identically before and after. -/
theorem rotate_frames_preserve_raw {α : Type} (ext : MocapLibs) (T : Mocap α)
    (C : Matrix (Fin 3) (Fin 3) ℝ) :
    ((Mocap.rotate_body_frame ext T C).stamps = T.stamps
      ∧ (Mocap.rotate_body_frame ext T C).rawPos = T.rawPos
      ∧ (Mocap.rotate_body_frame ext T C).rawQuat = T.rawQuat
      ∧ (Mocap.rotate_body_frame ext T C).frameId = T.frameId
      ∧ (Mocap.rotate_body_frame ext T C).staticMask = T.staticMask)
    ∧ ((Mocap.rotate_world_frame ext T C).stamps = T.stamps
      ∧ (Mocap.rotate_world_frame ext T C).rawPos = T.rawPos
      ∧ (Mocap.rotate_world_frame ext T C).rawQuat = T.rawQuat
      ∧ (Mocap.rotate_world_frame ext T C).frameId = T.frameId
      ∧ (Mocap.rotate_world_frame ext T C).staticMask = T.staticMask)
    ∧ (∀ t, Mocap.is_static (Mocap.rotate_body_frame ext T C) t = T.is_static t)
    ∧ (∀ t, Mocap.is_static (Mocap.rotate_world_frame ext T C) t = T.is_static t) :=
  ⟨⟨rfl, rfl, rfl, rfl, rfl⟩, ⟨rfl, rfl, rfl, rfl, rfl⟩, fun _ => rfl, fun _ => rfl⟩

theorem abs_step_right {K : Type} [LinearOrderedField K] {a b t : K}
    (hab : a ≤ b) (hmid : (a + b) / 2 < t) : |b - t| ≤ |a - t| := by
  have h1 : a - t ≤ |a - t| := le_abs_self _
  have h2 : t - a ≤ |a - t| := by rw [abs_sub_comm]; exact le_abs_self _
  refine abs_le.mpr ⟨?_, ?_⟩ <;> linarith

theorem abs_step_left {K : Type} [LinearOrderedField K] {a b t : K}
    (hab : a ≤ b) (hmid : t ≤ (a + b) / 2) : |a - t| ≤ |b - t| := by
  have h1 : b - t ≤ |b - t| := le_abs_self _
  have h2 : t - b ≤ |b - t| := by rw [abs_sub_comm]; exact le_abs_self _
  refine abs_le.mpr ⟨?_, ?_⟩ <;> linarith

theorem filter_range_eq_range {P : ℕ → Bool} {n : ℕ}
    (hdc : ∀ a b : ℕ, a ≤ b → b < n → P b = true → P a = true) :
    ∃ m, m ≤ n ∧ (List.range n).filter P = List.range m := by
  induction n with
  | zero => exact ⟨0, Nat.le_refl 0, rfl⟩
  | succ n ih =>
    obtain ⟨m, hm, hfil⟩ := ih (fun a b hab hbn hpb => hdc a b hab (Nat.lt_succ_of_lt hbn) hpb)
    by_cases hp : P n = true
    · refine ⟨n + 1, Nat.le_refl _, ?_⟩
      rw [List.range_succ, List.filter_append]
      have hall : (List.range n).filter P = List.range n :=
        List.filter_eq_self.mpr
          (fun a ha => hdc a n (Nat.le_of_lt (List.mem_range.mp ha)) (Nat.lt_succ_self n) hp)
      rw [hall]
      simp [hp]
    · refine ⟨m, Nat.le_succ_of_le hm, ?_⟩
      rw [List.range_succ, List.filter_append, hfil]
      simp [hp]

theorem midpoint_count_nearest {K : Type} [LinearOrderedField K] (s : ℕ → K) (n : ℕ) (t : K)
    (hsort : ∀ k, k + 1 < n → s k ≤ s (k + 1)) :
    ∀ j, j < n →
      |s ((List.range (n - 1)).countP (fun k => decide ((s k + s (k + 1)) / 2 < t))) - t|
        ≤ |s j - t| := by
  set P : ℕ → Bool := fun k => decide ((s k + s (k + 1)) / 2 < t) with hP
  have hmono : ∀ j, j < n → ∀ i, i ≤ j → s i ≤ s j := by
    intro j
    induction j with
    | zero =>
      intro _ i hi
      cases Nat.le_zero.mp hi
      exact le_refl _
    | succ j ih =>
      intro hj i hi
      rcases Nat.eq_or_lt_of_le hi with heq | hlt
      · rw [heq]
      · have hij : i ≤ j := Nat.lt_succ_iff.mp hlt
        exact le_trans (ih (Nat.lt_of_succ_lt hj) i hij) (hsort j hj)
  have hdc : ∀ a b : ℕ, a ≤ b → b < n - 1 → P b = true → P a = true := by
    intro a b hab hbM hPb
    have h1 : (s b + s (b + 1)) / 2 < t := by simpa [hP] using hPb
    have h2 : s a ≤ s b := hmono b (by omega) a hab
    have h3 : s (a + 1) ≤ s (b + 1) := hmono (b + 1) (by omega) (a + 1) (by omega)
    have h4 : (s a + s (a + 1)) / 2 < t := by linarith
    simpa [hP] using h4
  obtain ⟨m, hmM, hfil⟩ := filter_range_eq_range (n := n - 1) hdc
  have hidxm : (List.range (n - 1)).countP P = m := by
    rw [List.countP_eq_length_filter, hfil, List.length_range]
  have fact1 : ∀ k, k < m → (s k + s (k + 1)) / 2 < t := by
    intro k hk
    have hmem : k ∈ List.range m := List.mem_range.mpr hk
    rw [← hfil] at hmem
    have := List.of_mem_filter hmem
    simpa [hP] using this
  have fact2 : ∀ k, m ≤ k → k < n - 1 → t ≤ (s k + s (k + 1)) / 2 := by
    intro k hk hkM
    by_contra hcon
    push_neg at hcon
    have hPk : P k = true := by simpa [hP] using hcon
    have hmem : k ∈ List.filter P (List.range (n - 1)) :=
      List.mem_filter.mpr ⟨List.mem_range.mpr hkM, hPk⟩
    rw [hfil] at hmem
    have := List.mem_range.mp hmem
    omega
  have distRight : ∀ j, m ≤ j → j < n → |s m - t| ≤ |s j - t| := by
    intro j
    induction j with
    | zero =>
      intro h0 _
      have : m = 0 := Nat.le_zero.mp h0
      rw [this]
    | succ j ih =>
      intro hmj hjn
      rcases Nat.eq_or_lt_of_le hmj with heq | hlt
      · rw [heq]
      · have hmj' : m ≤ j := Nat.lt_succ_iff.mp hlt
        have h1 := ih hmj' (by omega)
        have h2 : |s j - t| ≤ |s (j + 1) - t| :=
          abs_step_left (hsort j (by omega)) (fact2 j hmj' (by omega))
        exact le_trans h1 h2
  have distLeft : ∀ d j, m = j + d → j < n → |s m - t| ≤ |s j - t| := by
    intro d
    induction d with
    | zero =>
      intro j hj _
      rw [hj]
      simp
    | succ d ih =>
      intro j hm hjn
      have hstep : |s (j + 1) - t| ≤ |s j - t| :=
        abs_step_right (hsort j (by omega)) (fact1 j (by omega))
      have h1 : |s m - t| ≤ |s (j + 1) - t| := ih (j + 1) (by omega) (by omega)
      exact le_trans h1 hstep
  intro j hj
  rw [show ((List.range (n - 1)).countP fun k => decide ((s k + s (k + 1)) / 2 < t)) = m
    from hidxm]
  rcases le_or_lt m j with hmj | hjm
  · exact distRight j hmj hj
  · exact distLeft (m - j) j (by omega) hj

/-- C8: `is_static(t)` looks up, without re-running the detector, the
static flag computed once at construction by
`get_static_mask(window_size=1, std_dev_threshold=0.0008)`, at the index
of the raw sample whose timestamp is nearest to `t` (nearest-neighbour
over `stamps`; queries outside the sampled range clamp to the first or
last sample). -/
theorem is_static_spec {α : Type} (ext : MocapLibs) (stamps : List ℝ)
    (position_data : List (Fin 3 → ℝ)) (quaternion_data : List (Fin 4 → ℝ))
    (frame_id : α) (t : ℝ)
    (hsort : ∀ k, k + 1 < stamps.length → stamps.getD k 0 ≤ stamps.getD (k + 1) 0) :
    (Mocap.is_static (mkMocap ext stamps position_data quaternion_data frame_id) t
        = get_static_mask (fun n => stamps.getD n 0) (fun n => position_data.getD n 0)
            stamps.length 1 0.0008 (nearest_time_idx stamps t))
    ∧ (stamps ≠ [] → nearest_time_idx stamps t < stamps.length)
    ∧ (∀ j, j < stamps.length →
        |stamps.getD (nearest_time_idx stamps t) 0 - t| ≤ |stamps.getD j 0 - t|) := by
  refine ⟨rfl, ?_, ?_⟩
  · intro hne
    have hlen : 0 < stamps.length := List.length_pos.mpr hne
    have hle : nearest_time_idx stamps t ≤ stamps.length - 1 := by
      calc nearest_time_idx stamps t
          ≤ (List.range (stamps.length - 1)).length := List.countP_le_length _
        _ = stamps.length - 1 := List.length_range _
    omega
  · intro j hj
    have := midpoint_count_nearest (fun k => stamps.getD k 0) stamps.length t hsort j hj
    simpa [nearest_time_idx] using this

/-- C8 witness: the lookup contract evaluated on a two-sample trajectory
with stamps `[0, 1]`, queried at `t = 5` (past the last sample). -/
theorem is_static_spec_witness :
    (∀ k, k + 1 < ([0, 1] : List ℝ).length →
        ([0, 1] : List ℝ).getD k 0 ≤ ([0, 1] : List ℝ).getD (k + 1) 0)
    ∧ ((Mocap.is_static (mkMocap extW [0, 1] [] [] ()) 5
          = get_static_mask (fun n => ([0, 1] : List ℝ).getD n 0)
              (fun n => ([] : List (Fin 3 → ℝ)).getD n 0) ([0, 1] : List ℝ).length
              1 0.0008 (nearest_time_idx ([0, 1] : List ℝ) 5))
       ∧ (([0, 1] : List ℝ) ≠ [] →
            nearest_time_idx ([0, 1] : List ℝ) 5 < ([0, 1] : List ℝ).length)
       ∧ (∀ j, j < ([0, 1] : List ℝ).length →
           |([0, 1] : List ℝ).getD (nearest_time_idx ([0, 1] : List ℝ) 5) 0 - 5|
             ≤ |([0, 1] : List ℝ).getD j 0 - 5|)) := by
  have hsort : ∀ k, k + 1 < ([0, 1] : List ℝ).length →
      ([0, 1] : List ℝ).getD k 0 ≤ ([0, 1] : List ℝ).getD (k + 1) 0 := by
    intro k hk
    have hk0 : k = 0 := by
      simp only [List.length_cons, List.length_nil] at hk
      omega
    subst hk0
    simp [List.getD_cons_zero, List.getD_cons_succ]
  exact ⟨hsort, is_static_spec extW [0, 1] [] [] () 5 hsort⟩

/-- C9: `from_bag` raises the multiple-topics `ValueError` whenever more
than one candidate topic survives the second filter, even when the
`topic` argument names the desired stream: the parameter is accepted but
never read, so the outcome is identical for every value of `topic`,
contradicting the claim (and the function's own docstring and error
message) that supplying `topic` selects the named stream and avoids the
error. -/
theorem from_bag_ignores_topic :
    (∀ (topics : List (List Char)) (body_id : List Char)
        (t1 t2 : Option (List Char)),
        from_bag topics body_id t1 = from_bag topics body_id t2)
    ∧ from_bag ["/a/deer/vrpn_client_node/deer/pose".toList,
          "/b/deer/vrpn_client_node/deer/pose".toList]
        "deer".toList (some "/a/deer/vrpn_client_node/deer/pose".toList)
      = Except.error multipleTopicsMsg := by
  refine ⟨fun topics body_id t1 t2 => rfl, ?_⟩
  with_unfolding_all rfl
